import Mathlib

/-!
Shallow embedding of `streamlit_app.py` (PyPI Package Web Asset Analyzer).

The script has four parts, each embedded below:
* `download_package` — fetches PyPI metadata, picks the first sdist release,
  downloads the archive into a fresh `mkdtemp` directory;
* `analyze_package` — extracts the archive into a `TemporaryDirectory`,
  walks the tree, and collects files with a web-asset extension into a dict;
* `analyze_dataframe` — grouping/summing for the pie chart and the summary
  statistics (total, mean, median in MB);
* the button handler — loops over comma-separated packages, catching
  per-package exceptions.

Strings are Lean `String`; file sizes are `Nat` (bytes); exact arithmetic on
sizes in MB is done in `ℚ` (Python floats are abstracted as exact rationals).
-/

namespace PkgAnalyzer

/-- `str.endswith suf` from Python: `suf` is a suffix of `s` (on char lists). -/
def strEndsWith (s suf : String) : Bool :=
  suf.data.isSuffixOf s.data

/-- ASCII lowercasing of one character, as `str.lower()` acts on the ASCII
range (all extensions compared against are ASCII). -/
def lowerChar (c : Char) : Char :=
  if 'A' ≤ c ∧ c ≤ 'Z' then Char.ofNat (c.toNat + 32) else c

/-- `str.lower()` (ASCII range). -/
def toLowerStr (s : String) : String :=
  ⟨s.data.map lowerChar⟩

/-- The final path component (`os.path.join(root, file)` always puts the
filename last; path separator is `/`). -/
def fileName (p : String) : String :=
  ⟨(p.data.reverse.takeWhile (· ≠ '/')).reverse⟩

/-- Index of the last `'.'` in a character list, if any. -/
def lastDotIdx (n : List Char) : Option Nat :=
  match n.reverse.findIdx? (· = '.') with
  | none => none
  | some j => some (n.length - 1 - j)

/-- `pathlib.PurePath.suffix`: the extension of the final component, from the
last dot, provided that dot is neither the first nor the last character of the
name (`0 < i < len(name) - 1` in CPython's implementation). -/
def pathSuffix (p : String) : String :=
  let n := (fileName p).data
  match lastDotIdx n with
  | none => ""
  | some i => if 0 < i ∧ i + 1 < n.length then ⟨n.drop i⟩ else ""

/-- `file_path.suffix.lower()` as in `analyze_package`. -/
def suffixLower (p : String) : String :=
  toLowerStr (pathSuffix p)

/-- The `web_extensions` set literal of `analyze_package`. -/
def web_extensions : List String :=
  [".js", ".css", ".html", ".htm", ".svg", ".png", ".jpg", ".jpeg", ".gif"]

/-- A file met during `os.walk`, identified by its path relative to the
extraction root (relative paths of a directory walk are pairwise distinct)
together with its `os.path.getsize` result. The suffix of the absolute
walk path equals the suffix of the relative path, because both end in the
same final component. -/
structure FileEntry where
  relPath : String
  size : Nat
  deriving Repr, DecidableEq

/-- The record stored as `assets[rel_path]`. -/
structure Asset where
  size : Nat
  extension : String
  path : String
  deriving Repr, DecidableEq

/-- Python `dict` assignment `d[k] = v`: overwrite in place if the key is
present (keeping insertion order), else append. -/
def dictInsert (d : List (String × Asset)) (k : String) (v : Asset) :
    List (String × Asset) :=
  if d.any (fun p => p.1 = k) then
    d.map (fun p => if p.1 = k then (k, v) else p)
  else
    d ++ [(k, v)]

/-- The `if file_path.suffix.lower() in web_extensions` test. -/
def isWebAsset (f : FileEntry) : Bool :=
  suffixLower f.relPath ∈ web_extensions

/-- The record `{"size": ..., "extension": ..., "path": ...}`. -/
def assetRecord (f : FileEntry) : Asset :=
  ⟨f.size, suffixLower f.relPath, f.relPath⟩

/-- The key/value pair `assets[rel_path] = {...}` stores. -/
def assetOf (f : FileEntry) : String × Asset :=
  (f.relPath, assetRecord f)

/-- The walk/filter loop of `analyze_package`: for each file, if the
lowercased suffix is a web extension, store `{size, extension, path}` under
the relative path. -/
def analyze_assets (files : List FileEntry) : List (String × Asset) :=
  files.foldl
    (fun d f =>
      if isWebAsset f then dictInsert d f.relPath (assetRecord f) else d)
    []

/-- Which extraction branch `analyze_package` takes. -/
inductive ExtractAction where
  | tar
  | zip
  | skip
  deriving Repr, DecidableEq

/-- The `if file_path.endswith(".tar.gz") ... elif file_path.endswith(".zip")`
chain in `analyze_package`. -/
def extractAction (filePath : String) : ExtractAction :=
  if strEndsWith filePath ".tar.gz" then .tar
  else if strEndsWith filePath ".zip" then .zip
  else .skip

/-- One run of `analyze_package`: the extraction branch taken, the files the
walk visits (everything extracted; nothing when no branch extracts, since the
temporary directory starts empty), and the returned dict. -/
structure AnalyzeRun where
  action : ExtractAction
  visited : List FileEntry
  assets : List (String × Asset)
  deriving Repr, DecidableEq

/-- `analyze_package`, run on an archive at `filePath` whose extraction would
produce the tree `content` (paths relative to the extraction root). -/
def analyze_package (filePath : String) (content : List FileEntry) :
    AnalyzeRun :=
  let action := extractAction filePath
  let extracted := match action with
    | .skip => []
    | _ => content
  { action := action
    visited := extracted
    assets := analyze_assets extracted }

example : suffixLower "pkg/static/app.JS" = ".js" := by decide
example : pathSuffix "archive.tar.gz" = ".gz" := by decide
example : pathSuffix "noext" = "" := by decide
example : pathSuffix "dir.d/noext" = "" := by decide
example : pathSuffix ".hidden" = "" := by decide
example : pathSuffix "trailing." = "" := by decide
example : extractAction "a/b.zip" = .zip := by decide
example : extractAction "a/b.tar.gz" = .tar := by decide
example : extractAction "a/b.tgz" = .skip := by decide
example :
    (analyze_package "p.tar.gz" [⟨"a/x.js", 10⟩, ⟨"a/y.txt", 5⟩]).assets
      = [("a/x.js", ⟨10, ".js", "a/x.js"⟩)] := by decide

/-! ## `download_package` -/

/-- One entry of `package_data["releases"][version]`: only the fields the
code reads. -/
structure Release where
  packagetype : String
  url : String
  deriving Repr, DecidableEq

/-- The parts of the PyPI JSON response the code reads: `info.version` and
the `releases` mapping from version string to release list. -/
structure PypiData where
  infoVersion : String
  releases : List (String × List Release)
  deriving Repr, DecidableEq

/-- Python exceptions `download_package` can raise from its own logic
(network errors are abstracted away: both GETs succeed). -/
inductive PyErr where
  | valueError (msg : String)
  | keyError (key : String)
  deriving Repr, DecidableEq

instance : DecidableEq (Except PyErr String) := fun
  | .ok a, .ok b =>
      if h : a = b then .isTrue (by rw [h]) else .isFalse (by simp [h])
  | .ok _, .error _ => .isFalse (by simp)
  | .error _, .ok _ => .isFalse (by simp)
  | .error a, .error b =>
      if h : a = b then .isTrue (by rw [h]) else .isFalse (by simp [h])

/-- The observable outcome of `download_package`: the HTTP GET requests it
issued in order, the files it wrote in order, and the returned file path
(or the exception that escaped). -/
structure DownloadResult where
  requests : List String
  writes : List String
  result : Except PyErr String
  deriving Repr, DecidableEq

/-- Python `dict` lookup `releases[version]`. -/
def releasesLookup (rels : List (String × List Release)) (version : String) :
    Option (List Release) :=
  (rels.find? (fun p => p.1 = version)).map (·.2)

/-- The `for release in ...: if release["packagetype"] == "sdist":
download_url = release["url"]; break` loop: `download_url` after the loop. -/
def firstSdistUrl (rels : List Release) : Option String :=
  (rels.find? (fun r => r.packagetype = "sdist")).map (·.url)

/-- `download_package(package_name, version=None)`, with the PyPI JSON
response `data` and the `tempfile.mkdtemp()` result `tempDir` as inputs.
Mirrors the source line by line: the metadata GET; version defaulting;
`releases[version]` lookup (a `KeyError` if absent); the first-sdist scan;
the `if not download_url` truthiness check (`None` or `""` both raise
`ValueError`); then `mkdtemp`, the archive GET, and the file write. -/
def download_package (packageName : String) (version? : Option String)
    (data : PypiData) (tempDir : String) : DownloadResult :=
  let pypiUrl := "https://pypi.org/pypi/" ++ packageName ++ "/json"
  let version := version?.getD data.infoVersion
  match releasesLookup data.releases version with
  | none =>
      { requests := [pypiUrl], writes := []
        result := .error (.keyError version) }
  | some rels =>
      let downloadUrl := firstSdistUrl rels
      if downloadUrl = none ∨ downloadUrl = some "" then
        { requests := [pypiUrl], writes := []
          result := .error (.valueError
            ("No source distribution found for " ++ packageName ++ " "
              ++ version)) }
      else
        let url := downloadUrl.getD ""
        let filePath := tempDir ++ "/" ++ packageName ++ ".tar.gz"
        { requests := [pypiUrl, url], writes := [filePath]
          result := .ok filePath }

/-- Modelled from the spec: "an HTTP GET against a package index" with "no
further requests, branching, or selection logic" — the download step as one
GET of a package-index URL for the package, handing the body straight to a
library call. Its request trace is that single GET. -/
def specDownloadRequests (packageName : String) : List String :=
  ["https://pypi.org/pypi/" ++ packageName ++ "/json"]

/-! ## Filesystem effects (persistence) -/

/-- Files and directories a step creates and removes, in order. -/
structure FsLog where
  created : List String
  removed : List String
  deriving Repr, DecidableEq

/-- Paths created but never removed. -/
def FsLog.remaining (log : FsLog) : List String :=
  log.created.filter (fun p => ¬ p ∈ log.removed)

/-- The disk footprint of a successful `download_package` call: it creates
the `mkdtemp` directory and writes the archive into it; nothing in the
function (or anywhere else in the script) removes either. -/
def download_fs (tempDir packageName : String) : FsLog :=
  { created := [tempDir, tempDir ++ "/" ++ packageName ++ ".tar.gz"]
    removed := [] }

/-- The disk footprint of `analyze_package`: the `TemporaryDirectory`
context manager creates `anTemp`, extraction populates it, and on exit the
context manager deletes the whole tree. -/
def analyze_fs (anTemp filePath : String) (content : List FileEntry) :
    FsLog :=
  let extracted := (analyze_package filePath content).visited
  let paths := anTemp :: extracted.map (fun f => anTemp ++ "/" ++ f.relPath)
  { created := paths, removed := paths }

/-- Combined footprint of one package's run: download then analysis of the
downloaded archive. -/
def run_fs (dlTemp anTemp packageName : String) (content : List FileEntry) :
    FsLog :=
  let dl := download_fs dlTemp packageName
  let an := analyze_fs anTemp (dlTemp ++ "/" ++ packageName ++ ".tar.gz")
    content
  { created := dl.created ++ an.created
    removed := dl.removed ++ an.removed }

/-! ## `analyze_dataframe` -/

/-- A row of the asset dataframe: the columns `path`, `size`, `extension`
built from `assets.values()`. -/
structure Row where
  path : String
  size : Nat
  extension : String
  deriving Repr, DecidableEq

/-- Bytes per megabyte: the `1024 * 1024` denominator of `size_mb`. -/
def mbBytes : ℚ := 1024 * 1024

/-- The `size_mb` column: `df["size"] / (1024 * 1024)` (exact rationals in
place of floats). -/
def sizeMbCol (rows : List Row) : List ℚ :=
  rows.map (fun r => (r.size : ℚ) / mbBytes)

/-- The distinct extensions of the dataframe (the groupby keys; the claims
do not depend on the key order). -/
def dfExtensions (rows : List Row) : List String :=
  (rows.map (·.extension)).dedup

/-- `df.groupby("extension")["size"].sum()`: for each distinct extension,
the sum of the sizes of the rows carrying it — the pie-chart slice values. -/
def groupSizeSum (rows : List Row) : List (String × Nat) :=
  (dfExtensions rows).map (fun e =>
    (e, ((rows.filter (fun r => r.extension = e)).map (·.size)).sum))

/-- Arithmetic mean of a list of rationals (`Series.mean`). -/
def listMean (l : List ℚ) : ℚ :=
  l.sum / l.length

/-- `Series.median`: sort, take the middle element for odd length, the
average of the two middle elements for even length (0 for the empty list,
where pandas yields NaN — the claims only concern non-empty frames). -/
def listMedian (l : List ℚ) : ℚ :=
  let s := l.insertionSort (· ≤ ·)
  if l.length % 2 = 1 then s.getD (l.length / 2) 0
  else if l.length = 0 then 0
  else (s.getD (l.length / 2 - 1) 0 + s.getD (l.length / 2) 0) / 2

/-- The four summary numbers `analyze_dataframe` renders (before the
`:.2f` formatting): `len(df)`, `df["size"].sum() / (1024*1024)`,
`df["size_mb"].mean()`, `df["size_mb"].median()`. -/
structure Summary where
  totalAssets : Nat
  totalSizeMb : ℚ
  averageSizeMb : ℚ
  medianSizeMb : ℚ
  deriving Repr, DecidableEq

/-- The summary statistics block of `analyze_dataframe`. -/
def summaryStats (rows : List Row) : Summary :=
  { totalAssets := rows.length
    totalSizeMb := ((rows.map (·.size)).sum : ℚ) / mbBytes
    averageSizeMb := listMean (sizeMbCol rows)
    medianSizeMb := listMedian (sizeMbCol rows) }

/-! ## The button handler loop -/

/-- What `download_package(package)` followed by `analyze_package(...)`
produced for one package: either the assets dict, or the exception caught
by the handler's `except Exception`. -/
def PkgOutcome : Type := Except String (List (String × Asset))

/-- Messages the handler renders for one package. -/
inductive Msg where
  | errorMsg (pkg msg : String)
  | warnMsg (pkg : String)
  | analysis (pkg : String) (rows : List Row)
  deriving Repr, DecidableEq

/-- The dataframe built from `assets.values()` (insertion order). -/
def dfOfAssets (assets : List (String × Asset)) : List Row :=
  assets.map (fun p => ⟨p.2.path, p.2.size, p.2.extension⟩)

/-- The body of the `for package in packages` loop for one package: on an
exception, `st.error` and fall through; on an empty dict, `st.warning` and
`continue`; otherwise render the analysis and append the dataframe. -/
def processOne (pkg : String) (oc : PkgOutcome) :
    List Msg × Option (List Row) :=
  match oc with
  | .error e => ([.errorMsg pkg e], none)
  | .ok assets =>
      if assets.isEmpty then ([.warnMsg pkg], none)
      else
        let df := dfOfAssets assets
        ([.analysis pkg df], some df)

/-- The whole loop: every package in the list is processed in order; the
`dataframes` list accumulates only successful, non-empty analyses. -/
def processPackages (pkgs : List (String × PkgOutcome)) :
    List Msg × List (List Row) :=
  pkgs.foldl
    (fun acc x =>
      (acc.1 ++ (processOne x.1 x.2).1,
        match (processOne x.1 x.2).2 with
        | some df => acc.2 ++ [df]
        | none => acc.2))
    ([], [])

example :
    processPackages
      [("a", .error "boom"), ("b", .ok [("x.js", ⟨7, ".js", "x.js"⟩)]),
       ("c", .ok [])]
      = ([.errorMsg "a" "boom", .analysis "b" [⟨"x.js", 7, ".js"⟩],
          .warnMsg "c"],
         [[⟨"x.js", 7, ".js"⟩]]) := by decide

/-! ## Lemmas about the walk/filter fold -/

/-- Inserting a fresh key appends. -/
lemma dictInsert_of_not_mem (d : List (String × Asset)) (k : String)
    (v : Asset) (h : ∀ p ∈ d, p.1 ≠ k) :
    dictInsert d k v = d ++ [(k, v)] := by
  unfold dictInsert
  rw [if_neg]
  simp only [List.any_eq_true, decide_eq_true_eq, not_exists]
  intro p hp
  exact h p hp.1 hp.2

/-- When the walked files have pairwise distinct relative paths and none of
them collides with a key already in the accumulator, the fold appends
exactly the web-asset entries, in walk order. -/
lemma analyze_assets_fold (files : List FileEntry) :
    ∀ d : List (String × Asset),
      (∀ f ∈ files, ∀ p ∈ d, p.1 ≠ f.relPath) →
      (files.map (·.relPath)).Nodup →
      files.foldl
        (fun d f =>
          if isWebAsset f then dictInsert d f.relPath (assetRecord f) else d)
        d
        = d ++ (files.filter isWebAsset).map assetOf := by
  induction files with
  | nil => intro d _ _; simp
  | cons f fs ih =>
      intro d hdisj hnodup
      simp only [List.map_cons, List.nodup_cons, List.mem_map] at hnodup
      by_cases hw : isWebAsset f
      · have hins :
            dictInsert d f.relPath (assetRecord f)
              = d ++ [(f.relPath, assetRecord f)] :=
          dictInsert_of_not_mem d f.relPath (assetRecord f)
            (fun p hp => hdisj f (by simp) p hp)
        have hdisj' :
            ∀ g ∈ fs, ∀ p ∈ d ++ [(f.relPath, assetRecord f)],
              p.1 ≠ g.relPath := by
          intro g hg p hp
          rcases List.mem_append.mp hp with hp | hp
          · exact hdisj g (by simp [hg]) p hp
          · simp only [List.mem_singleton] at hp
            subst hp
            intro hcontra
            exact hnodup.1 ⟨g, hg, hcontra.symm⟩
        calc
          List.foldl
              (fun d f =>
                if isWebAsset f then dictInsert d f.relPath (assetRecord f)
                else d)
              d (f :: fs)
              = List.foldl
                  (fun d f =>
                    if isWebAsset f then
                      dictInsert d f.relPath (assetRecord f)
                    else d)
                  (d ++ [(f.relPath, assetRecord f)]) fs := by
                simp [hw, hins]
          _ = (d ++ [(f.relPath, assetRecord f)])
                ++ (fs.filter isWebAsset).map assetOf :=
                ih _ hdisj' hnodup.2
          _ = d ++ ((f :: fs).filter isWebAsset).map assetOf := by
                simp [List.filter_cons, hw, assetOf]
      · have hstep :
            List.foldl
              (fun d f =>
                if isWebAsset f then dictInsert d f.relPath (assetRecord f)
                else d)
              d (f :: fs)
              = List.foldl
                  (fun d f =>
                    if isWebAsset f then
                      dictInsert d f.relPath (assetRecord f)
                    else d)
                  d fs := by
          simp [hw]
        rw [hstep, ih d (fun g hg => hdisj g (by simp [hg])) hnodup.2]
        simp [List.filter_cons, hw]

/-- The walk/filter fold keeps exactly the web-asset files, in walk order,
when the walked paths are distinct. -/
lemma analyze_assets_exact (files : List FileEntry)
    (h : (files.map (·.relPath)).Nodup) :
    analyze_assets files = (files.filter isWebAsset).map assetOf := by
  have := analyze_assets_fold files [] (by simp) h
  simpa [analyze_assets] using this

/-- C1. For every extracted package tree (with the distinct relative paths
a directory walk produces), the dict `analyze_package` returns is exactly
the walked files whose lowercased suffix is a web extension, each entry
carrying the file's size, lowercased extension, and root-relative path. -/
theorem analyze_package_exactly_web_assets (filePath : String)
    (files : List FileEntry) (h : (files.map (·.relPath)).Nodup) :
    (analyze_package filePath files).assets
      = ((analyze_package filePath files).visited.filter isWebAsset).map
          assetOf := by
  unfold analyze_package
  cases haction : extractAction filePath with
  | tar => exact analyze_assets_exact files h
  | zip => exact analyze_assets_exact files h
  | skip => rfl

/-- Witness for C1 at a concrete tree: one `.js`, one `.PNG` (lowercased to
`.png`), one excluded `.txt`. -/
theorem analyze_package_exactly_web_assets_witness :
    (([⟨"a/x.js", 10⟩, ⟨"y.txt", 5⟩, ⟨"img/z.PNG", 3⟩].map
        (FileEntry.relPath ·)).Nodup)
    ∧ (analyze_package "p-1.0.tar.gz"
          [⟨"a/x.js", 10⟩, ⟨"y.txt", 5⟩, ⟨"img/z.PNG", 3⟩]).assets
        = ((analyze_package "p-1.0.tar.gz"
            [⟨"a/x.js", 10⟩, ⟨"y.txt", 5⟩,
              ⟨"img/z.PNG", 3⟩]).visited.filter isWebAsset).map assetOf :=
  ⟨by decide,
   analyze_package_exactly_web_assets "p-1.0.tar.gz"
     [⟨"a/x.js", 10⟩, ⟨"y.txt", 5⟩, ⟨"img/z.PNG", 3⟩] (by decide)⟩

/-- Any entry of `dictInsert d k v` is an old entry or the new pair. -/
lemma mem_dictInsert (d : List (String × Asset)) (k : String) (v : Asset)
    (kv : String × Asset) (h : kv ∈ dictInsert d k v) :
    kv ∈ d ∨ kv = (k, v) := by
  unfold dictInsert at h
  by_cases hany : d.any (fun p => p.1 = k)
  · rw [if_pos hany] at h
    rcases List.mem_map.mp h with ⟨p, hp, hpe⟩
    by_cases hk : p.1 = k
    · right; rw [if_pos hk] at hpe; exact hpe.symm
    · left; rw [if_neg hk] at hpe; exact hpe ▸ hp
  · rw [if_neg hany] at h
    rcases List.mem_append.mp h with h | h
    · exact Or.inl h
    · exact Or.inr (List.mem_singleton.mp h)

/-- The per-entry invariant of the assets dict. -/
def AssetInv (kv : String × Asset) : Prop :=
  kv.2.path = kv.1 ∧ kv.2.extension = suffixLower kv.1
    ∧ kv.2.extension ∈ web_extensions ∧ (0 : ℤ) ≤ (kv.2.size : ℤ)

/-- The fold preserves the per-entry invariant. -/
lemma analyze_assets_fold_inv (files : List FileEntry) :
    ∀ d : List (String × Asset), (∀ kv ∈ d, AssetInv kv) →
      ∀ kv ∈ files.foldl
        (fun d f =>
          if isWebAsset f then dictInsert d f.relPath (assetRecord f) else d)
        d, AssetInv kv := by
  induction files with
  | nil => intro d hd kv hkv; exact hd kv hkv
  | cons f fs ih =>
      intro d hd kv hkv
      by_cases hw : isWebAsset f
      · refine ih (dictInsert d f.relPath (assetRecord f)) ?_ kv
          (by simpa [hw] using hkv)
        intro kv' hkv'
        rcases mem_dictInsert d f.relPath (assetRecord f) kv' hkv' with
          h | h
        · exact hd kv' h
        · subst h
          refine ⟨rfl, rfl, ?_, Int.ofNat_nonneg _⟩
          simpa [isWebAsset] using hw
      · exact ih d hd kv (by simpa [hw] using hkv)

/-- C10. Every entry of the dict returned by `analyze_package` has its
`path` field equal to its key, its `extension` field equal to the
lowercased suffix of that path and a member of the web-extension set, and a
non-negative size. -/
theorem analyze_assets_entry_invariant (files : List FileEntry)
    (kv : String × Asset) (h : kv ∈ analyze_assets files) :
    kv.2.path = kv.1 ∧ kv.2.extension = suffixLower kv.1
      ∧ kv.2.extension ∈ web_extensions ∧ (0 : ℤ) ≤ (kv.2.size : ℤ) :=
  analyze_assets_fold_inv files [] (by simp) kv h

/-- Witness for C10 at a concrete tree and entry. -/
theorem analyze_assets_entry_invariant_witness :
    (("img/z.PNG", Asset.mk 3 ".png" "img/z.PNG")
        ∈ analyze_assets [⟨"y.txt", 5⟩, ⟨"img/z.PNG", 3⟩])
    ∧ ((("img/z.PNG", Asset.mk 3 ".png" "img/z.PNG") :
          String × Asset).2.path = "img/z.PNG"
        ∧ (("img/z.PNG", Asset.mk 3 ".png" "img/z.PNG") :
            String × Asset).2.extension = suffixLower "img/z.PNG"
        ∧ (("img/z.PNG", Asset.mk 3 ".png" "img/z.PNG") :
            String × Asset).2.extension ∈ web_extensions
        ∧ (0 : ℤ) ≤ ((("img/z.PNG", Asset.mk 3 ".png" "img/z.PNG") :
            String × Asset).2.size : ℤ)) :=
  ⟨by decide,
   analyze_assets_entry_invariant [⟨"y.txt", 5⟩, ⟨"img/z.PNG", 3⟩]
     ("img/z.PNG", Asset.mk 3 ".png" "img/z.PNG") (by decide)⟩

/-- A path ending in `".zip"` cannot also end in `".tar.gz"`, so the
`elif` branch really is decided by the path's ending alone. -/
lemma zip_not_targz (s : String) (h : strEndsWith s ".zip" = true) :
    strEndsWith s ".tar.gz" = false := by
  unfold strEndsWith at *
  rw [List.isSuffixOf_iff_suffix] at h
  by_contra hcontra
  rw [Bool.not_eq_false, List.isSuffixOf_iff_suffix] at hcontra
  rcases List.suffix_or_suffix_of_suffix h hcontra with habs | habs
  · revert habs; decide
  · revert habs; decide

/-- C7. The extraction call is determined by the input path's ending:
`.tar.gz` goes to the tar branch, `.zip` to the zip branch, and in either
case the walk then visits every file of the extracted tree. -/
theorem analyze_package_extraction (filePath : String)
    (content : List FileEntry) :
    (strEndsWith filePath ".tar.gz" = true →
        (analyze_package filePath content).action = .tar
        ∧ (analyze_package filePath content).visited = content)
    ∧ (strEndsWith filePath ".zip" = true →
        (analyze_package filePath content).action = .zip
        ∧ (analyze_package filePath content).visited = content) := by
  constructor
  · intro h
    constructor <;> simp [analyze_package, extractAction, h]
  · intro h
    have hne := zip_not_targz filePath h
    constructor <;> simp [analyze_package, extractAction, h, hne]

/-- Witness for C7: a `.tar.gz` path takes the tar branch, a `.zip` path
the zip branch, each walking the whole extracted tree. -/
theorem analyze_package_extraction_witness :
    (strEndsWith "p-1.0.tar.gz" ".tar.gz" = true
      ∧ ((analyze_package "p-1.0.tar.gz" [⟨"a/x.js", 1⟩]).action = .tar
          ∧ (analyze_package "p-1.0.tar.gz" [⟨"a/x.js", 1⟩]).visited
              = [⟨"a/x.js", 1⟩]))
    ∧ (strEndsWith "q.zip" ".zip" = true
      ∧ ((analyze_package "q.zip" [⟨"b.css", 2⟩]).action = .zip
          ∧ (analyze_package "q.zip" [⟨"b.css", 2⟩]).visited
              = [⟨"b.css", 2⟩])) :=
  ⟨⟨by decide,
    (analyze_package_extraction "p-1.0.tar.gz" [⟨"a/x.js", 1⟩]).1
      (by decide)⟩,
   ⟨by decide,
    (analyze_package_extraction "q.zip" [⟨"b.css", 2⟩]).2 (by decide)⟩⟩

/-- A walk containing no web-asset file produces the empty dict. -/
lemma analyze_assets_eq_nil (content : List FileEntry)
    (h : ∀ f ∈ content, isWebAsset f = false) :
    analyze_assets content = [] := by
  suffices hgen : ∀ fs : List FileEntry,
      (∀ f ∈ fs, isWebAsset f = false) →
      ∀ d : List (String × Asset),
        fs.foldl
          (fun d f =>
            if isWebAsset f then dictInsert d f.relPath (assetRecord f)
            else d)
          d = d by
    simpa [analyze_assets] using hgen content h []
  intro fs
  induction fs with
  | nil => intro _ d; rfl
  | cons g gs ih =>
      intro hh d
      have hg : isWebAsset g = false := hh g (by simp)
      simp only [List.foldl_cons, hg, Bool.false_eq_true, if_false]
      exact ih (fun x hx => hh x (by simp [hx])) d

/-- C9. A path ending in neither `.tar.gz` nor `.zip` skips extraction and
returns normally with the empty dict (the walk sees the still-empty
temporary directory); a package with no web-asset files likewise returns
the empty dict, which the handler reports as a warning and skips without
appending a dataframe. -/
theorem analyze_package_no_archive (filePath : String)
    (content content2 : List FileEntry) (pkg : String)
    (h1 : strEndsWith filePath ".tar.gz" = false)
    (h2 : strEndsWith filePath ".zip" = false)
    (h3 : ∀ f ∈ content2, isWebAsset f = false) :
    (analyze_package filePath content).action = .skip
    ∧ (analyze_package filePath content).assets = []
    ∧ analyze_assets content2 = []
    ∧ processOne pkg (.ok []) = ([.warnMsg pkg], none) := by
  have hact : extractAction filePath = .skip := by
    simp [extractAction, h1, h2]
  refine ⟨?_, ?_, analyze_assets_eq_nil content2 h3, rfl⟩
  · simp [analyze_package, hact]
  · simp [analyze_package, hact, analyze_assets]

/-- Witness for C9: a `.whl` path is skipped; a tree of only `.txt` files
yields the empty dict; the handler warns and skips. -/
theorem analyze_package_no_archive_witness :
    (strEndsWith "demo-1.0.whl" ".tar.gz" = false
      ∧ strEndsWith "demo-1.0.whl" ".zip" = false
      ∧ ∀ f ∈ [(⟨"y.txt", 2⟩ : FileEntry)], isWebAsset f = false)
    ∧ ((analyze_package "demo-1.0.whl" [⟨"a/x.js", 1⟩]).action = .skip
      ∧ (analyze_package "demo-1.0.whl" [⟨"a/x.js", 1⟩]).assets = []
      ∧ analyze_assets [⟨"y.txt", 2⟩] = []
      ∧ processOne "demo" (.ok []) = ([.warnMsg "demo"], none)) :=
  ⟨⟨by decide, by decide, by decide⟩,
   analyze_package_no_archive "demo-1.0.whl" [⟨"a/x.js", 1⟩] [⟨"y.txt", 2⟩]
     "demo" (by decide) (by decide) (by decide)⟩

/-- C2 (amended). `download_package` selects the URL of the first release
whose `packagetype` is `"sdist"` and downloads it, and it raises
`ValueError` — writing no file — exactly when no release of the version has
`packagetype` `"sdist"` or the first such release's `url` is the empty
string (the `if not download_url` truthiness check treats `""` like
`None`). -/
theorem download_package_sdist_selection (packageName version tempDir :
    String) (data : PypiData) (rels : List Release)
    (h : releasesLookup data.releases version = some rels) :
    ((∃ msg, (download_package packageName (some version) data
          tempDir).result = .error (.valueError msg))
        ↔ (firstSdistUrl rels = none ∨ firstSdistUrl rels = some ""))
    ∧ ((firstSdistUrl rels = none ∨ firstSdistUrl rels = some "") →
        (download_package packageName (some version) data tempDir).writes
          = [])
    ∧ (∀ url, firstSdistUrl rels = some url → url ≠ "" →
        (download_package packageName (some version) data tempDir).requests
            = ["https://pypi.org/pypi/" ++ packageName ++ "/json", url]
          ∧ (download_package packageName (some version) data
              tempDir).writes = [tempDir ++ "/" ++ packageName ++ ".tar.gz"]
          ∧ (download_package packageName (some version) data
              tempDir).result
              = .ok (tempDir ++ "/" ++ packageName ++ ".tar.gz")) := by
  by_cases hc : firstSdistUrl rels = none ∨ firstSdistUrl rels = some ""
  · have hres : download_package packageName (some version) data tempDir
        = { requests := ["https://pypi.org/pypi/" ++ packageName ++ "/json"]
            writes := []
            result := .error (.valueError
              ("No source distribution found for " ++ packageName ++ " "
                ++ version)) } := by
      simp [download_package, h, hc]
    refine ⟨?_, fun _ => by rw [hres], ?_⟩
    · rw [hres]
      exact ⟨fun _ => hc, fun _ => ⟨_, rfl⟩⟩
    · intro url hurl hne
      exfalso
      rcases hc with hc | hc
      · rw [hurl] at hc; exact Option.some_ne_none url hc
      · rw [hurl] at hc
        exact hne (Option.some.inj hc)
  · obtain ⟨url0, hu⟩ : ∃ u, firstSdistUrl rels = some u := by
      cases he : firstSdistUrl rels with
      | none => exact absurd (Or.inl he) hc
      | some u => exact ⟨u, rfl⟩
    have hres : download_package packageName (some version) data tempDir
        = { requests :=
              ["https://pypi.org/pypi/" ++ packageName ++ "/json", url0]
            writes := [tempDir ++ "/" ++ packageName ++ ".tar.gz"]
            result := .ok (tempDir ++ "/" ++ packageName ++ ".tar.gz") } := by
      have hne0 : url0 ≠ "" := fun habs => hc (Or.inr (habs ▸ hu))
      simp [download_package, h, hc, hu, hne0]
    refine ⟨?_, ?_, ?_⟩
    · rw [hres]
      exact ⟨fun ⟨msg, hmsg⟩ => absurd hmsg (by simp), fun habs =>
        absurd habs hc⟩
    · intro habs; exact absurd habs hc
    · intro url hurl _
      have : url = url0 := Option.some.inj (hurl ▸ hu)
      subst this
      rw [hres]
      exact ⟨rfl, rfl, rfl⟩

/-- Witness for C2 (amended): a version whose releases hold a wheel and two
sdists; the first sdist's URL is downloaded. -/
theorem download_package_sdist_selection_witness :
    (releasesLookup
        [("1.0", [Release.mk "bdist_wheel" "u0", Release.mk "sdist" "u1",
          Release.mk "sdist" "u2"])] "1.0"
        = some [Release.mk "bdist_wheel" "u0", Release.mk "sdist" "u1",
          Release.mk "sdist" "u2"])
    ∧ (firstSdistUrl [Release.mk "bdist_wheel" "u0",
          Release.mk "sdist" "u1", Release.mk "sdist" "u2"] = some "u1"
      ∧ (download_package "pkg" (some "1.0")
          ⟨"1.0", [("1.0", [Release.mk "bdist_wheel" "u0",
            Release.mk "sdist" "u1", Release.mk "sdist" "u2"])]⟩
          "/tmp/t").requests
          = ["https://pypi.org/pypi/pkg/json", "u1"]) :=
  ⟨by decide,
   by decide,
   ((download_package_sdist_selection "pkg" "1.0" "/tmp/t"
      ⟨"1.0", [("1.0", [Release.mk "bdist_wheel" "u0",
        Release.mk "sdist" "u1", Release.mk "sdist" "u2"])]⟩
      [Release.mk "bdist_wheel" "u0", Release.mk "sdist" "u1",
        Release.mk "sdist" "u2"] (by decide)).2.2 "u1" (by decide)
      (by decide)).1⟩

/-- Counterexample to C2 as stated: with a single release of packagetype
`"sdist"` whose `url` is `""`, a source distribution exists, yet
`download_package` raises `ValueError`. -/
theorem download_package_valueerror_counterexample :
    (∃ r ∈ [Release.mk "sdist" ""], r.packagetype = "sdist")
    ∧ (download_package "pkg" (some "1.0")
        ⟨"1.0", [("1.0", [Release.mk "sdist" ""])]⟩ "/tmp/t").result
        = .error (.valueError "No source distribution found for pkg 1.0") :=
  ⟨⟨Release.mk "sdist" "", by decide, rfl⟩, by decide⟩

/-- C4 (amended). The download step always begins with the metadata GET
against the package index; when it returns a file it has issued exactly two
GET requests (metadata, then archive), and when it raises it has issued
exactly the metadata GET — together with the sdist-selection logic of
`download_package_sdist_selection`, more than the spec's single
GET-plus-library-call. -/
theorem download_package_request_trace (packageName tempDir : String)
    (version? : Option String) (data : PypiData) :
    ((download_package packageName version? data tempDir).requests.head?
        = some ("https://pypi.org/pypi/" ++ packageName ++ "/json"))
    ∧ (∀ p, (download_package packageName version? data tempDir).result
          = .ok p →
        (download_package packageName version? data tempDir).requests.length
          = 2)
    ∧ (∀ e, (download_package packageName version? data tempDir).result
          = .error e →
        (download_package packageName version? data tempDir).requests
          = ["https://pypi.org/pypi/" ++ packageName ++ "/json"]) := by
  cases h : releasesLookup data.releases (version?.getD data.infoVersion)
    with
  | none =>
      refine ⟨?_, ?_, ?_⟩ <;>
        simp [download_package, h]
  | some rels =>
      by_cases hc : firstSdistUrl rels = none ∨ firstSdistUrl rels = some ""
      · refine ⟨?_, ?_, ?_⟩ <;>
          simp [download_package, h, hc]
      · refine ⟨?_, ?_, ?_⟩ <;>
          simp [download_package, h, hc]

/-- Witness for C4 (amended): a successful concrete run issues exactly the
metadata GET and the archive GET. -/
theorem download_package_request_trace_witness :
    ((download_package "pkg" none
        ⟨"1.0", [("1.0",
          [Release.mk "sdist" "https://files.example/pkg-1.0.tar.gz"])]⟩
        "/tmp/t").result = .ok "/tmp/t/pkg.tar.gz")
    ∧ (download_package "pkg" none
        ⟨"1.0", [("1.0",
          [Release.mk "sdist" "https://files.example/pkg-1.0.tar.gz"])]⟩
        "/tmp/t").requests.length = 2 :=
  ⟨by decide,
   (download_package_request_trace "pkg" "/tmp/t" none
      ⟨"1.0", [("1.0",
        [Release.mk "sdist" "https://files.example/pkg-1.0.tar.gz"])]⟩).2.1
     "/tmp/t/pkg.tar.gz" (by decide)⟩

/-- Counterexample to C4 as stated: a successful download issues two GET
requests, not the single GET of the spec's one-request model. -/
theorem download_single_get_counterexample :
    (download_package "pkg" none
        ⟨"1.0", [("1.0",
          [Release.mk "sdist" "https://files.example/pkg-1.0.tar.gz"])]⟩
        "/tmp/t").requests.length = 2
    ∧ (specDownloadRequests "pkg").length = 1
    ∧ (download_package "pkg" none
        ⟨"1.0", [("1.0",
          [Release.mk "sdist" "https://files.example/pkg-1.0.tar.gz"])]⟩
        "/tmp/t").requests ≠ specDownloadRequests "pkg" := by
  refine ⟨by decide, by decide, by decide⟩

/-- C3 (amended). `analyze_package` removes everything it creates (the
`TemporaryDirectory` cleans up the extraction tree), but the `mkdtemp`
directory and the archive `download_package` writes into it are never
removed: they are exactly what remains on disk after the run. -/
theorem run_fs_persistence (dlTemp anTemp packageName : String)
    (content : List FileEntry)
    (h : ∀ p ∈ (download_fs dlTemp packageName).created,
        p ∉ (analyze_fs anTemp (dlTemp ++ "/" ++ packageName ++ ".tar.gz")
          content).removed) :
    (analyze_fs anTemp (dlTemp ++ "/" ++ packageName ++ ".tar.gz")
        content).remaining = []
    ∧ (run_fs dlTemp anTemp packageName content).remaining
        = (download_fs dlTemp packageName).created := by
  have hself : ∀ l : List String, l.filter (fun p => ¬ p ∈ l) = [] := by
    intro l
    rw [List.filter_eq_nil_iff]
    intro p hp
    simp [hp]
  have hdisj : ∀ l r : List String, (∀ p ∈ l, p ∉ r) →
      l.filter (fun p => ¬ p ∈ r) = l := by
    intro l r hlr
    rw [List.filter_eq_self]
    intro p hp
    simpa using hlr p hp
  have hrm : (analyze_fs anTemp (dlTemp ++ "/" ++ packageName ++ ".tar.gz")
      content).removed
      = (analyze_fs anTemp (dlTemp ++ "/" ++ packageName ++ ".tar.gz")
        content).created := rfl
  constructor
  · show (analyze_fs anTemp (dlTemp ++ "/" ++ packageName ++ ".tar.gz")
        content).created.filter
        (fun p => ¬ p ∈ (analyze_fs anTemp
          (dlTemp ++ "/" ++ packageName ++ ".tar.gz") content).removed)
        = []
    rw [hrm]
    exact hself _
  · show ((download_fs dlTemp packageName).created
        ++ (analyze_fs anTemp (dlTemp ++ "/" ++ packageName ++ ".tar.gz")
          content).created).filter
        (fun p => ¬ p ∈ ((download_fs dlTemp packageName).removed
          ++ (analyze_fs anTemp
            (dlTemp ++ "/" ++ packageName ++ ".tar.gz") content).removed))
        = (download_fs dlTemp packageName).created
    have hnil : (download_fs dlTemp packageName).removed
        ++ (analyze_fs anTemp (dlTemp ++ "/" ++ packageName ++ ".tar.gz")
          content).removed
        = (analyze_fs anTemp (dlTemp ++ "/" ++ packageName ++ ".tar.gz")
          content).created := by
      rw [hrm]
      rfl
    simp only [hnil, List.filter_append]
    rw [hself, List.append_nil]
    exact hdisj _ _ (fun p hp => hrm ▸ h p hp)

/-- Witness for C3 (amended) at a concrete run. -/
theorem run_fs_persistence_witness :
    (∀ p ∈ (download_fs "/tmp/dl0" "demo").created,
        p ∉ (analyze_fs "/tmp/an0" ("/tmp/dl0" ++ "/" ++ "demo"
          ++ ".tar.gz") [⟨"x.js", 3⟩]).removed)
    ∧ ((analyze_fs "/tmp/an0" ("/tmp/dl0" ++ "/" ++ "demo" ++ ".tar.gz")
        [⟨"x.js", 3⟩]).remaining = []
      ∧ (run_fs "/tmp/dl0" "/tmp/an0" "demo" [⟨"x.js", 3⟩]).remaining
          = (download_fs "/tmp/dl0" "demo").created) :=
  ⟨by decide,
   run_fs_persistence "/tmp/dl0" "/tmp/an0" "demo" [⟨"x.js", 3⟩]
     (by decide)⟩

/-- Counterexample to C3 as stated: after a concrete run, the download
temporary directory and the downloaded archive remain on disk. -/
theorem run_fs_leftover_counterexample :
    (run_fs "/tmp/dl0" "/tmp/an0" "demo" [⟨"x.js", 3⟩]).remaining
        = ["/tmp/dl0", "/tmp/dl0/demo.tar.gz"]
    ∧ (run_fs "/tmp/dl0" "/tmp/an0" "demo" [⟨"x.js", 3⟩]).remaining
        ≠ [] := by
  refine ⟨by decide, by decide⟩

/-- Splitting a sum of mapped values along a Boolean test. -/
lemma sum_map_filter_split (p : Row → Bool) (f : Row → Nat)
    (rows : List Row) :
    ((rows.filter p).map f).sum
      + ((rows.filter (fun r => !(p r))).map f).sum
      = (rows.map f).sum := by
  induction rows with
  | nil => simp
  | cons r rs ih =>
      cases hp : p r <;>
        · simp only [List.filter_cons, hp, Bool.not_true, Bool.not_false,
            if_true, if_false, List.map_cons, List.sum_cons,
            Bool.false_eq_true, Bool.true_eq_false, ← ih]
          omega

/-- Summing group sums over a complete list of distinct keys recovers the
total. -/
lemma sum_over_groups (key : Row → String) (f : Row → Nat) :
    ∀ (E : List String) (rows : List Row), E.Nodup →
      (∀ r ∈ rows, key r ∈ E) →
      (E.map (fun e => ((rows.filter (fun r => key r = e)).map f).sum)).sum
        = (rows.map f).sum := by
  intro E
  induction E with
  | nil =>
      intro rows _ hall
      cases rows with
      | nil => simp
      | cons r rs => exact absurd (hall r (by simp)) (by simp)
  | cons e E' ih =>
      intro rows hnd hall
      simp only [List.map_cons, List.sum_cons]
      have hmap : E'.map
          (fun e' => ((rows.filter (fun r => key r = e')).map f).sum)
          = E'.map (fun e' =>
            (((rows.filter (fun r => !(key r = e))).filter
              (fun r => key r = e')).map f).sum) := by
        apply List.map_congr_left
        intro e' he'
        rw [List.filter_filter]
        have heq : rows.filter (fun r => key r = e')
            = rows.filter
              (fun a => decide (key a = e') && !(decide (key a = e))) := by
          apply List.filter_congr
          intro r _
          have hee : e' ≠ e := fun habs =>
            (List.nodup_cons.mp hnd).1 (habs ▸ he')
          by_cases hk : key r = e'
          · simp [hk, hee]
          · simp [hk]
        rw [heq]
      rw [hmap,
        ih (rows.filter (fun r => !(key r = e)))
          (List.nodup_cons.mp hnd).2 ?_]
      · exact sum_map_filter_split (fun r => key r = e) f rows
      · intro r hr
        rcases List.mem_filter.mp hr with ⟨hmem, hne⟩
        rcases List.mem_cons.mp (hall r hmem) with he | he'
        · exfalso
          simp only [Bool.not_eq_eq_eq_not, Bool.not_true,
            decide_eq_false_iff_not] at hne
          exact hne he
        · exact he'

/-- C5. The pie chart's keys are exactly the extensions present; each slice
value is the sum of the byte sizes of exactly the assets with that
extension; and the slices sum to the total byte size. -/
theorem pie_chart_slices (rows : List Row) :
    (∀ e, e ∈ dfExtensions rows ↔ ∃ r ∈ rows, r.extension = e)
    ∧ (∀ p ∈ groupSizeSum rows,
        p.2 = ((rows.filter (fun r => r.extension = p.1)).map (·.size)).sum)
    ∧ ((groupSizeSum rows).map (·.2)).sum = (rows.map (·.size)).sum := by
  refine ⟨?_, ?_, ?_⟩
  · intro e
    simp [dfExtensions, List.mem_dedup, List.mem_map]
  · intro p hp
    rcases List.mem_map.mp hp with ⟨e, _, rfl⟩
    rfl
  · show ((dfExtensions rows).map (fun e =>
        (e, ((rows.filter (fun r => r.extension = e)).map (·.size)).sum))
        |>.map (·.2)).sum = (rows.map (·.size)).sum
    rw [List.map_map]
    exact sum_over_groups (·.extension) (·.size) (dfExtensions rows) rows
      (List.nodup_dedup _)
      (fun r hr => List.mem_dedup.mpr (List.mem_map.mpr ⟨r, hr, rfl⟩))

/-- Witness for C5 at a concrete dataframe with two `.js` rows and one
`.css` row. -/
theorem pie_chart_slices_witness :
    ((".js", (11 : Nat))
        ∈ groupSizeSum [⟨"a.js", 10, ".js"⟩, ⟨"b.css", 4, ".css"⟩,
          ⟨"c.js", 1, ".js"⟩])
    ∧ ((((".js", (11 : Nat)) : String × Nat)).2
        = ((([⟨"a.js", 10, ".js"⟩, ⟨"b.css", 4, ".css"⟩,
            ⟨"c.js", 1, ".js"⟩] : List Row).filter
            (fun r => r.extension = ((".js", (11 : Nat)) :
              String × Nat).1)).map (fun r => r.size)).sum)
    ∧ ((groupSizeSum [⟨"a.js", 10, ".js"⟩, ⟨"b.css", 4, ".css"⟩,
          ⟨"c.js", 1, ".js"⟩]).map (·.2)).sum
        = (([⟨"a.js", 10, ".js"⟩, ⟨"b.css", 4, ".css"⟩,
            ⟨"c.js", 1, ".js"⟩] : List Row).map (fun r => r.size)).sum :=
  ⟨by decide,
   (pie_chart_slices [⟨"a.js", 10, ".js"⟩, ⟨"b.css", 4, ".css"⟩,
      ⟨"c.js", 1, ".js"⟩]).2.1 (".js", 11) (by decide),
   (pie_chart_slices [⟨"a.js", 10, ".js"⟩, ⟨"b.css", 4, ".css"⟩,
      ⟨"c.js", 1, ".js"⟩]).2.2⟩

/-- Dividing each list element divides the sum. -/
lemma sum_map_div (l : List ℚ) (M : ℚ) :
    (l.map (fun x => x / M)).sum = l.sum / M := by
  induction l with
  | nil => simp
  | cons a t ih => simp [ih, add_div]

/-- Division by a positive constant commutes with sorting: both sides are
sorted permutations of the same list. -/
lemma insertionSort_map_div (l : List ℚ) (M : ℚ) (hM : 0 < M) :
    (l.map (fun x => x / M)).insertionSort (· ≤ ·)
      = (l.insertionSort (· ≤ ·)).map (fun x => x / M) := by
  have hmono : ∀ a b : ℚ, a ≤ b → a / M ≤ b / M := by
    intro a b hab
    rw [div_eq_mul_inv, div_eq_mul_inv]
    exact mul_le_mul_of_nonneg_right hab (inv_nonneg.mpr hM.le)
  exact @List.eq_of_perm_of_sorted ℚ (· ≤ ·) inferInstance _ _
    ((List.perm_insertionSort _ _).trans
      ((List.perm_insertionSort _ l).symm.map _))
    (List.sorted_insertionSort _ _)
    (List.Pairwise.map _ hmono (List.sorted_insertionSort _ l))

/-- `getD` with default `0` commutes with the division map. -/
lemma getD_map_div (s : List ℚ) (M : ℚ) (i : Nat) :
    (s.map (fun x => x / M)).getD i 0 = s.getD i 0 / M := by
  rcases Nat.lt_or_ge i s.length with hi | hi
  · rw [List.getD_eq_getElem?_getD, List.getD_eq_getElem?_getD,
      List.getElem?_map, List.getElem?_eq_getElem hi]
    simp
  · rw [List.getD_eq_getElem?_getD, List.getD_eq_getElem?_getD,
      List.getElem?_map, List.getElem?_eq_none (by simpa using hi)]
    simp

/-- The mean scales with a constant divisor. -/
lemma listMean_map_div (l : List ℚ) (M : ℚ) :
    listMean (l.map (fun x => x / M)) = listMean l / M := by
  unfold listMean
  rw [sum_map_div, List.length_map, div_right_comm]

/-- The median scales with a positive constant divisor. -/
lemma listMedian_map_div (l : List ℚ) (M : ℚ) (hM : 0 < M) :
    listMedian (l.map (fun x => x / M)) = listMedian l / M := by
  unfold listMedian
  rw [insertionSort_map_div l M hM, List.length_map]
  by_cases hodd : l.length % 2 = 1
  · rw [if_pos hodd, if_pos hodd, getD_map_div]
  · rw [if_neg hodd, if_neg hodd]
    by_cases h0 : l.length = 0
    · rw [if_pos h0, if_pos h0]
      simp
    · rw [if_neg h0, if_neg h0, getD_map_div, getD_map_div]
      ring

/-- C6. For a non-empty asset dataframe the rendered summary satisfies:
the asset count is the number of rows; the total size is the byte sum
divided by 1048576; the average and median sizes are the mean and median of
the rows' byte sizes divided by 1048576. -/
theorem summary_stats_correct (rows : List Row) (h : rows ≠ []) :
    (summaryStats rows).totalAssets = rows.length
    ∧ (summaryStats rows).totalSizeMb
        = ((rows.map (fun r => r.size)).sum : ℚ) / 1048576
    ∧ (summaryStats rows).averageSizeMb
        = listMean (rows.map (fun r => (r.size : ℚ))) / 1048576
    ∧ (summaryStats rows).medianSizeMb
        = listMedian (rows.map (fun r => (r.size : ℚ))) / 1048576 := by
  have hMB : mbBytes = 1048576 := by norm_num [mbBytes]
  have hcol : sizeMbCol rows
      = (rows.map (fun r => (r.size : ℚ))).map (fun x => x / mbBytes) := by
    rw [List.map_map]
    rfl
  refine ⟨rfl, by rw [show (summaryStats rows).totalSizeMb
    = ((rows.map (fun r => r.size)).sum : ℚ) / mbBytes from rfl, hMB],
    ?_, ?_⟩
  · show listMean (sizeMbCol rows) = _
    rw [hcol, listMean_map_div, hMB]
  · show listMedian (sizeMbCol rows) = _
    rw [hcol, listMedian_map_div _ _ (by norm_num [mbBytes]), hMB]

/-- Witness for C6 at a concrete three-row dataframe. -/
theorem summary_stats_correct_witness :
    (([⟨"a.js", 1048576, ".js"⟩, ⟨"b.css", 2097152, ".css"⟩,
        ⟨"c.png", 3145728, ".png"⟩] : List Row) ≠ [])
    ∧ ((summaryStats [⟨"a.js", 1048576, ".js"⟩, ⟨"b.css", 2097152, ".css"⟩,
          ⟨"c.png", 3145728, ".png"⟩]).totalAssets
        = ([⟨"a.js", 1048576, ".js"⟩, ⟨"b.css", 2097152, ".css"⟩,
            ⟨"c.png", 3145728, ".png"⟩] : List Row).length
      ∧ (summaryStats [⟨"a.js", 1048576, ".js"⟩, ⟨"b.css", 2097152, ".css"⟩,
          ⟨"c.png", 3145728, ".png"⟩]).totalSizeMb
        = ((([⟨"a.js", 1048576, ".js"⟩, ⟨"b.css", 2097152, ".css"⟩,
            ⟨"c.png", 3145728, ".png"⟩] : List Row).map
            (fun r => r.size)).sum : ℚ) / 1048576
      ∧ (summaryStats [⟨"a.js", 1048576, ".js"⟩, ⟨"b.css", 2097152, ".css"⟩,
          ⟨"c.png", 3145728, ".png"⟩]).averageSizeMb
        = listMean (([⟨"a.js", 1048576, ".js"⟩, ⟨"b.css", 2097152, ".css"⟩,
            ⟨"c.png", 3145728, ".png"⟩] : List Row).map
            (fun r => (r.size : ℚ))) / 1048576
      ∧ (summaryStats [⟨"a.js", 1048576, ".js"⟩, ⟨"b.css", 2097152, ".css"⟩,
          ⟨"c.png", 3145728, ".png"⟩]).medianSizeMb
        = listMedian (([⟨"a.js", 1048576, ".js"⟩,
            ⟨"b.css", 2097152, ".css"⟩,
            ⟨"c.png", 3145728, ".png"⟩] : List Row).map
            (fun r => (r.size : ℚ))) / 1048576) :=
  ⟨by simp,
   summary_stats_correct [⟨"a.js", 1048576, ".js"⟩,
     ⟨"b.css", 2097152, ".css"⟩, ⟨"c.png", 3145728, ".png"⟩] (by simp)⟩

/-- Unrolling the handler loop from any accumulator state. -/
lemma processPackages_fold (pkgs : List (String × PkgOutcome)) :
    ∀ (ms : List Msg) (dfs : List (List Row)),
      pkgs.foldl
        (fun acc x =>
          (acc.1 ++ (processOne x.1 x.2).1,
            match (processOne x.1 x.2).2 with
            | some df => acc.2 ++ [df]
            | none => acc.2))
        (ms, dfs)
        = (ms ++ (pkgs.map (fun x => (processOne x.1 x.2).1)).flatten,
           dfs ++ pkgs.filterMap (fun x => (processOne x.1 x.2).2)) := by
  induction pkgs with
  | nil => intro ms dfs; simp
  | cons x xs ih =>
      intro ms dfs
      simp only [List.foldl_cons]
      cases hdf : (processOne x.1 x.2).2 with
      | none =>
          simp only [hdf]
          rw [ih]
          simp [List.filterMap_cons, hdf, List.append_assoc]
      | some df =>
          simp only [hdf]
          rw [ih]
          simp [List.filterMap_cons, hdf, List.append_assoc]

/-- C8. The handler processes every package of the list, in order: each
package contributes exactly its own messages (an exception becomes one
error message for that package and nothing stops the loop), and the
cumulative dataframe list keeps only the successful non-empty analyses, so
a failed package contributes no rows. -/
theorem handler_isolates_failures (pkgs : List (String × PkgOutcome)) :
    (processPackages pkgs).1
        = (pkgs.map (fun x => (processOne x.1 x.2).1)).flatten
    ∧ (processPackages pkgs).2
        = pkgs.filterMap (fun x => (processOne x.1 x.2).2)
    ∧ ∀ pkg e, processOne pkg (.error e) = ([.errorMsg pkg e], none) := by
  refine ⟨?_, ?_, fun pkg e => rfl⟩
  · simp only [processPackages]
    rw [processPackages_fold pkgs [] []]
    simp
  · simp only [processPackages]
    rw [processPackages_fold pkgs [] []]
    simp

end PkgAnalyzer
